import Mathlib

/-
Verification of the DES block-cipher module (sage.crypto.block_cipher.des).

The module has two classes:
 * `DES`    : the cipher; construction/dispatch/equality are implemented in the
   source, while `encrypt`/`decrypt` bodies are `NotImplementedError` stubs and
   are therefore modelled from the spec (FIPS 46-3 reference DES).
 * `DES_KS` : the key schedule; construction, `__getitem__`, `__iter__`,
   `__eq__` and `_left_shift` are implemented in the source, while `__call__`
   (round-key derivation) is a stub, modelled from the spec.

Bit conventions follow the spec: a 64-bit block is a list of 64 booleans,
bit 0 the most significant; permutation tables are 1-indexed as published.
-/

namespace DESSpec

/-- Numeric value of one bit. -/
def bv (b : Bool) : Nat := if b then 1 else 0

/-- Big-endian (MSB-first) value of a bit list. -/
def fromBits (bs : List Bool) : Nat := bs.foldl (fun a b => 2 * a + bv b) 0

/-- MSB-first bit list of width `w` of a natural number (taken mod `2 ^ w`). -/
def toBits : Nat → Nat → List Bool
  | 0, _ => []
  | w + 1, p => toBits w (p / 2) ++ [decide (p % 2 = 1)]

/-- Apply a 1-indexed selection/permutation table to a bit list; out-of-range
entries read `false`. The output length is the table length. -/
def perm (t : List Nat) (v : List Bool) : List Bool :=
  t.map (fun i => v.getD (i - 1) false)

/-- Bitwise XOR of two bit lists (truncating to the shorter). -/
def xorBits (a b : List Bool) : List Bool := List.zipWith xor a b

/-- Initial Permutation table IP (FIPS 46-3). -/
def IPtable : List Nat :=
  [58, 50, 42, 34, 26, 18, 10, 2,
   60, 52, 44, 36, 28, 20, 12, 4,
   62, 54, 46, 38, 30, 22, 14, 6,
   64, 56, 48, 40, 32, 24, 16, 8,
   57, 49, 41, 33, 25, 17, 9, 1,
   59, 51, 43, 35, 27, 19, 11, 3,
   61, 53, 45, 37, 29, 21, 13, 5,
   63, 55, 47, 39, 31, 23, 15, 7]

/-- Final Permutation table FP, the inverse of IP (FIPS 46-3). -/
def FPtable : List Nat :=
  [40, 8, 48, 16, 56, 24, 64, 32,
   39, 7, 47, 15, 55, 23, 63, 31,
   38, 6, 46, 14, 54, 22, 62, 30,
   37, 5, 45, 13, 53, 21, 61, 29,
   36, 4, 44, 12, 52, 20, 60, 28,
   35, 3, 43, 11, 51, 19, 59, 27,
   34, 2, 42, 10, 50, 18, 58, 26,
   33, 1, 41, 9, 49, 17, 57, 25]

/-- Expansion table E, 32 bits to 48 bits (FIPS 46-3). -/
def Etable : List Nat :=
  [32, 1, 2, 3, 4, 5,
   4, 5, 6, 7, 8, 9,
   8, 9, 10, 11, 12, 13,
   12, 13, 14, 15, 16, 17,
   16, 17, 18, 19, 20, 21,
   20, 21, 22, 23, 24, 25,
   24, 25, 26, 27, 28, 29,
   28, 29, 30, 31, 32, 1]

/-- Permutation table P of the round function (FIPS 46-3). -/
def Ptable : List Nat :=
  [16, 7, 20, 21,
   29, 12, 28, 17,
   1, 15, 23, 26,
   5, 18, 31, 10,
   2, 8, 24, 14,
   32, 27, 3, 9,
   19, 13, 30, 6,
   22, 11, 4, 25]

/-- Permuted Choice 1 table PC1, 64-bit key to 56 bits (FIPS 46-3). -/
def PC1table : List Nat :=
  [57, 49, 41, 33, 25, 17, 9,
   1, 58, 50, 42, 34, 26, 18,
   10, 2, 59, 51, 43, 35, 27,
   19, 11, 3, 60, 52, 44, 36,
   63, 55, 47, 39, 31, 23, 15,
   7, 62, 54, 46, 38, 30, 22,
   14, 6, 61, 53, 45, 37, 29,
   21, 13, 5, 28, 20, 12, 4]

/-- Permuted Choice 2 table PC2, 56 bits to 48 bits (FIPS 46-3). -/
def PC2table : List Nat :=
  [14, 17, 11, 24, 1, 5,
   3, 28, 15, 6, 21, 10,
   23, 19, 12, 4, 26, 8,
   16, 7, 27, 20, 13, 2,
   41, 52, 31, 37, 47, 55,
   30, 40, 51, 45, 33, 48,
   44, 49, 39, 56, 34, 53,
   46, 42, 50, 36, 29, 32]

/-- The eight DES S-boxes, each flattened to 64 entries, row-major
(row = outer bits b0 b5, column = inner bits b1 b2 b3 b4) (FIPS 46-3). -/
def Sboxes : List (List Nat) :=
  [[14, 4, 13, 1, 2, 15, 11, 8, 3, 10, 6, 12, 5, 9, 0, 7,
    0, 15, 7, 4, 14, 2, 13, 1, 10, 6, 12, 11, 9, 5, 3, 8,
    4, 1, 14, 8, 13, 6, 2, 11, 15, 12, 9, 7, 3, 10, 5, 0,
    15, 12, 8, 2, 4, 9, 1, 7, 5, 11, 3, 14, 10, 0, 6, 13],
   [15, 1, 8, 14, 6, 11, 3, 4, 9, 7, 2, 13, 12, 0, 5, 10,
    3, 13, 4, 7, 15, 2, 8, 14, 12, 0, 1, 10, 6, 9, 11, 5,
    0, 14, 7, 11, 10, 4, 13, 1, 5, 8, 12, 6, 9, 3, 2, 15,
    13, 8, 10, 1, 3, 15, 4, 2, 11, 6, 7, 12, 0, 5, 14, 9],
   [10, 0, 9, 14, 6, 3, 15, 5, 1, 13, 12, 7, 11, 4, 2, 8,
    13, 7, 0, 9, 3, 4, 6, 10, 2, 8, 5, 14, 12, 11, 15, 1,
    13, 6, 4, 9, 8, 15, 3, 0, 11, 1, 2, 12, 5, 10, 14, 7,
    1, 10, 13, 0, 6, 9, 8, 7, 4, 15, 14, 3, 11, 5, 2, 12],
   [7, 13, 14, 3, 0, 6, 9, 10, 1, 2, 8, 5, 11, 12, 4, 15,
    13, 8, 11, 5, 6, 15, 0, 3, 4, 7, 2, 12, 1, 10, 14, 9,
    10, 6, 9, 0, 12, 11, 7, 13, 15, 1, 3, 14, 5, 2, 8, 4,
    3, 15, 0, 6, 10, 1, 13, 8, 9, 4, 5, 11, 12, 7, 2, 14],
   [2, 12, 4, 1, 7, 10, 11, 6, 8, 5, 3, 15, 13, 0, 14, 9,
    14, 11, 2, 12, 4, 7, 13, 1, 5, 0, 15, 10, 3, 9, 8, 6,
    4, 2, 1, 11, 10, 13, 7, 8, 15, 9, 12, 5, 6, 3, 0, 14,
    11, 8, 12, 7, 1, 14, 2, 13, 6, 15, 0, 9, 10, 4, 5, 3],
   [12, 1, 10, 15, 9, 2, 6, 8, 0, 13, 3, 4, 14, 7, 5, 11,
    10, 15, 4, 2, 7, 12, 9, 5, 6, 1, 13, 14, 0, 11, 3, 8,
    9, 14, 15, 5, 2, 8, 12, 3, 7, 0, 4, 10, 1, 13, 11, 6,
    4, 3, 2, 12, 9, 5, 15, 10, 11, 14, 1, 7, 6, 0, 8, 13],
   [4, 11, 2, 14, 15, 0, 8, 13, 3, 12, 9, 7, 5, 10, 6, 1,
    13, 0, 11, 7, 4, 9, 1, 10, 14, 3, 5, 12, 2, 15, 8, 6,
    1, 4, 11, 13, 12, 3, 7, 14, 10, 15, 6, 8, 0, 5, 9, 2,
    6, 11, 13, 8, 1, 4, 10, 7, 9, 5, 0, 15, 14, 2, 3, 12],
   [13, 2, 8, 4, 6, 15, 11, 1, 10, 9, 3, 14, 5, 0, 12, 7,
    1, 15, 13, 8, 10, 3, 7, 4, 12, 5, 6, 11, 0, 14, 9, 2,
    7, 11, 4, 1, 9, 12, 14, 2, 0, 6, 10, 13, 15, 3, 5, 8,
    2, 1, 14, 7, 4, 10, 8, 13, 15, 12, 9, 0, 3, 5, 6, 11]]

/-- Substitute one 6-bit group through one (flattened) S-box, producing
4 bits: row from the outer bits, column from the inner four bits. -/
def sboxOut (S : List Nat) (g : List Bool) : List Bool :=
  let b := fun i => g.getD i false
  let row := 2 * bv (b 0) + bv (b 5)
  let col := 8 * bv (b 1) + 4 * bv (b 2) + 2 * bv (b 3) + bv (b 4)
  toBits 4 (S.getD (16 * row + col) 0)

/-- Substitute a 48-bit list through a list of S-boxes, 6 bits per box. -/
def sboxSubAux : List (List Nat) → List Bool → List Bool
  | [], _ => []
  | S :: Ss, bs => sboxOut S (bs.take 6) ++ sboxSubAux Ss (bs.drop 6)

/-- Spec 4.2: the round function f: expansion by E, XOR with the round key,
S-box substitution, permutation by P. -/
def roundF (R k : List Bool) : List Bool :=
  perm Ptable (sboxSubAux Sboxes (xorBits (perm Etable R) k))

/-- One Feistel round on a pair of 32-bit halves: `(L, R) ↦ (R, L ⊕ f(R, k))`. -/
def feistelStep (k : List Bool) (s : List Bool × List Bool) :
    List Bool × List Bool :=
  (s.2, xorBits s.1 (roundF s.2 k))

/-- Iterate the Feistel rounds, consuming round keys in order. -/
def feistelRounds (ks : List (List Bool)) (s : List Bool × List Bool) :
    List Bool × List Bool :=
  ks.foldl (fun s k => feistelStep k s) s

/-- Rotate a bit list circularly left by `a`: `H[a:] ++ H[0:a]`. -/
def rotl (a : Nat) (h : List Bool) : List Bool := h.drop a ++ h.take a

/-- The per-round shift amounts: the list `amount` of `DES_KS._left_shift`
(des.py line 230). -/
def amount : List Nat := [1, 1, 2, 2, 2, 2, 2, 2, 1, 2, 2, 2, 2, 2, 2, 1]

/-- Modelled from the spec: round-key derivation (the body of
`DES_KS.__call__` is a `NotImplementedError` stub). Walk the shift table,
rotating both halves and emitting `PC2(C ++ D)` per round. -/
def deriveAux : List Nat → List Bool → List Bool → List (List Bool)
  | [], _, _ => []
  | a :: rest, C, D =>
    let C2 := rotl a C
    let D2 := rotl a D
    perm PC2table (C2 ++ D2) :: deriveAux rest C2 D2

/-- Modelled from the spec: `derive(masterKey)`, the full 16-round DES key
schedule: PC1, split into 28-bit halves, per-round rotations, PC2. -/
def derive (K : List Bool) : List (List Bool) :=
  let k56 := perm PC1table K
  deriveAux amount (k56.take 28) (k56.drop 28)

/-- Modelled from the spec: the encryption network on bit lists, given the
round keys: IP, split, Feistel rounds, swap, FP. -/
def encryptBits (ks : List (List Bool)) (P : List Bool) : List Bool :=
  let ip := perm IPtable P
  let s := feistelRounds ks (ip.take 32, ip.drop 32)
  perm FPtable (s.2 ++ s.1)

/-- Modelled from the spec: decryption is the identical network with the
round-key sequence reversed. -/
def decryptBits (ks : List (List Bool)) (C : List Bool) : List Bool :=
  encryptBits ks.reverse C

/-- Modelled from the spec: `DES.encrypt` on integer block and key (the
source body is a `NotImplementedError` stub), for a cipher of `r` rounds:
only the first `r` round keys (in derivation order) are used. -/
def encryptWith (r : Nat) (P K : Nat) : Nat :=
  fromBits (encryptBits ((derive (toBits 64 K)).take r) (toBits 64 P))

/-- Modelled from the spec: `DES.decrypt` for a cipher of `r` rounds. -/
def decryptWith (r : Nat) (C K : Nat) : Nat :=
  fromBits (decryptBits ((derive (toBits 64 K)).take r) (toBits 64 C))

/-- `DES.encrypt` of the default 16-round cipher. -/
def encrypt (P K : Nat) : Nat := encryptWith 16 P K

/-- `DES.decrypt` of the default 16-round cipher. -/
def decrypt (C K : Nat) : Nat := decryptWith 16 C K

/-- The state of a `DES_KS` object: the attributes set in
`DES_KS.__init__` (des.py lines 123-128). -/
structure DES_KS where
  rounds : Nat
  master_key : Option Nat
deriving DecidableEq, Repr

/-- The Python exceptions the module raises. `valueError` is the spec's
ConfigurationError. -/
inductive PyError where
  | attributeError
  | valueError
  | indexError
deriving DecidableEq, Repr

/-- The `keySchedule` argument of `DES.__init__`: Python `None`, the
default `False` (des.py line 28), or an actual `DES_KS` object. -/
inductive KSArg where
  | noneArg
  | falseArg
  | ksArg (k : DES_KS)
deriving DecidableEq

/-- The state of a `DES` object: the attributes set in `DES.__init__`
(des.py lines 28-53). -/
structure DES where
  keySchedule : DES_KS
  rounds : Nat
  blocksize : Nat
deriving DecidableEq, Repr

/-- `DES.__init__` (des.py lines 28-53). The code tests `keySchedule is
None`, yet the declared default is `False`; with the default in force the
`else` branch stores `False` in `self._keySchedule`, and every subsequent
path reads `self._keySchedule._rounds`, which on Python `False` raises
AttributeError. -/
def DES.init (rounds : Option Nat) (keySchedule : KSArg) : Except PyError DES :=
  match keySchedule with
  | .falseArg => .error .attributeError
  | .noneArg =>
    let ks : DES_KS := ⟨16, none⟩
    match rounds with
    | none => .ok ⟨ks, ks.rounds, 64⟩
    | some r =>
      if r ≤ ks.rounds then .ok ⟨ks, r, 64⟩ else .error .valueError
  | .ksArg ks =>
    match rounds with
    | none => .ok ⟨ks, ks.rounds, 64⟩
    | some r =>
      if r ≤ ks.rounds then .ok ⟨ks, r, 64⟩ else .error .valueError

/-- `DES.__call__` (des.py lines 55-84): dispatch on the `algorithm`
string; anything other than the two literals raises ValueError. -/
def DES.call (d : DES) (B K : Nat) (algorithm : String) : Except PyError Nat :=
  if algorithm = "encrypt" then .ok (encryptWith d.rounds B K)
  else if algorithm = "decrypt" then .ok (decryptWith d.rounds B K)
  else .error .valueError

/-- `DES.__eq__` (des.py lines 86-95) between two `DES` objects: Python
compares `self.__dict__ == other.__dict__`, i.e. the three attributes
`_keySchedule`, `_rounds`, `_blocksize` pairwise. -/
def DES.dictEq (a b : DES) : Bool :=
  a.keySchedule == b.keySchedule && a.rounds == b.rounds &&
    a.blocksize == b.blocksize

/-- `DES_KS.__eq__` (des.py lines 150-159) between two `DES_KS` objects:
Python compares `self.__dict__ == other.__dict__`, i.e. the attributes
`_rounds`, `_master_key` pairwise. -/
def DES_KS.dictEq (a b : DES_KS) : Bool :=
  a.rounds == b.rounds && a.master_key == b.master_key

/-- `DES_KS.__call__` on an integer key. The body is a stub, so the
round-key list is modelled from the spec (`derive`, truncated to the
schedule's rounds), returned as 48-bit integers. -/
def DES_KS.call (ks : DES_KS) (K : Nat) : List Nat :=
  ((derive (toBits 64 K)).take ks.rounds).map fromBits

/-- `DES_KS.__getitem__` (des.py lines 168-181): without a master key raise
ValueError, otherwise `self(self._master_key)[r]` (IndexError when `r` is
out of range, as Python indexing would). -/
def DES_KS.getitem (ks : DES_KS) (r : Nat) : Except PyError Nat :=
  match ks.master_key with
  | none => .error .valueError
  | some K =>
    match (DES_KS.call ks K)[r]? with
    | some v => .ok v
    | none => .error .indexError

/-- `DES_KS.__iter__` (des.py lines 183-199): without a master key raise
ValueError, otherwise iterate over `self(self._master_key)`; the iterate
is modelled by the underlying list. -/
def DES_KS.iter (ks : DES_KS) : Except PyError (List Nat) :=
  match ks.master_key with
  | none => .error .valueError
  | some K => .ok (DES_KS.call ks K)

/-- Python list indexing `amount[i-1]` as `_left_shift` performs it, for a
round number `i ≥ 0`: for `i = 0` the index is `-1`, which Python resolves
to the LAST entry of the 16-element table. -/
def amountAt (i : Nat) : Nat :=
  if i = 0 then amount.getD (amount.length - 1) 0 else amount.getD (i - 1) 0

/-- `DES_KS._left_shift` (des.py lines 213-232):
`vector(GF(2), list(half[amount[i-1]:]) + list(half[0:amount[i-1]]))`. -/
def left_shift (half : List Bool) (i : Nat) : List Bool :=
  half.drop (amountAt i) ++ half.take (amountAt i)

/-- `_left_shift` with the argument's final state made explicit: the body
only reads `half` through slices (`half[a:]`, `half[0:a]`), which copy, and
builds a fresh `vector`, so the argument's contents after the call equal
its contents before. Returns (result, final contents of `half`). -/
def left_shift_st (half : List Bool) (i : Nat) : List Bool × List Bool :=
  (left_shift half i, half)

/-! Helper lemmas. -/

theorem length_perm (t : List Nat) (v : List Bool) :
    (perm t v).length = t.length := by
  simp [perm]

theorem length_toBits (w p : Nat) : (toBits w p).length = w := by
  induction w generalizing p with
  | zero => rfl
  | succ w ih => simp [toBits, ih]

theorem fromBits_append_singleton (l : List Bool) (b : Bool) :
    fromBits (l ++ [b]) = 2 * fromBits l + bv b := by
  simp [fromBits]

theorem toBits_fromBits (l : List Bool) : toBits l.length (fromBits l) = l := by
  induction l using List.reverseRecOn with
  | nil => rfl
  | append_singleton l b ih =>
    have hb : bv b < 2 := by cases b <;> simp [bv]
    have h1 : (2 * fromBits l + bv b) / 2 = fromBits l := by omega
    have h2 : (2 * fromBits l + bv b) % 2 = bv b := by omega
    have h3 : decide ((2 * fromBits l + bv b) % 2 = 1) = b := by
      rw [h2]; cases b <;> simp [bv]
    simp only [List.length_append, List.length_cons, List.length_nil,
      fromBits_append_singleton, toBits, h1, h3, ih]

theorem fromBits_toBits (w : Nat) : ∀ p, p < 2 ^ w → fromBits (toBits w p) = p := by
  induction w with
  | zero => intro p hp; interval_cases p; rfl
  | succ w ih =>
    intro p hp
    have hdiv : p / 2 < 2 ^ w := by
      rw [pow_succ] at hp; omega
    have hmod : bv (decide (p % 2 = 1)) = p % 2 := by
      rcases Nat.mod_two_eq_zero_or_one p with h | h <;> simp [h, bv]
    rw [toBits, fromBits_append_singleton, ih _ hdiv, hmod]
    omega

theorem length_xorBits (a b : List Bool) :
    (xorBits a b).length = min a.length b.length := by
  simp [xorBits]

theorem xorBits_xorBits_cancel :
    ∀ (a b : List Bool), a.length ≤ b.length → xorBits (xorBits a b) b = a := by
  intro a
  induction a with
  | nil => intro b _; rfl
  | cons x a ih =>
    intro b hb
    cases b with
    | nil => simp at hb
    | cons y b =>
      simp only [List.length_cons, Nat.succ_le_succ_iff] at hb
      simp only [xorBits, List.zipWith_cons_cons]
      rw [show xor (xor x y) y = x by cases x <;> cases y <;> rfl]
      have := ih b hb
      simp only [xorBits] at this
      rw [this]

theorem length_roundF (R k : List Bool) : (roundF R k).length = 32 := by
  rw [roundF, length_perm]; rfl

theorem feistelRounds_lengths (ks : List (List Bool)) :
    ∀ s : List Bool × List Bool, s.1.length = 32 → s.2.length = 32 →
      (feistelRounds ks s).1.length = 32 ∧ (feistelRounds ks s).2.length = 32 := by
  induction ks with
  | nil => intro s h1 h2; exact ⟨h1, h2⟩
  | cons k ks ih =>
    intro s h1 h2
    have hstep : (feistelStep k s).1.length = 32 ∧ (feistelStep k s).2.length = 32 := by
      constructor
      · exact h2
      · rw [feistelStep]; simp only [length_xorBits, length_roundF, h1]; omega
    have : feistelRounds (k :: ks) s = feistelRounds ks (feistelStep k s) := rfl
    rw [this]
    exact ih _ hstep.1 hstep.2

theorem feistelRounds_append (l₁ l₂ : List (List Bool)) (s : List Bool × List Bool) :
    feistelRounds (l₁ ++ l₂) s = feistelRounds l₂ (feistelRounds l₁ s) := by
  simp [feistelRounds]

/-- The Feistel unwinding core: running the reversed key sequence on the
swapped result of the forward run restores the swapped initial state. -/
theorem feistelRounds_reverse (ks : List (List Bool)) :
    ∀ L R : List Bool, L.length = 32 → R.length = 32 →
      feistelRounds ks.reverse
        ((feistelRounds ks (L, R)).2, (feistelRounds ks (L, R)).1) = (R, L) := by
  induction ks with
  | nil => intro L R _ _; rfl
  | cons k ks ih =>
    intro L R hL hR
    have hcons : ∀ s, feistelRounds (k :: ks) s = feistelRounds ks (feistelStep k s) :=
      fun s => rfl
    have hstep : feistelStep k (L, R) = (R, xorBits L (roundF R k)) := rfl
    have hxlen : (xorBits L (roundF R k)).length = 32 := by
      rw [length_xorBits, length_roundF, hL]; omega
    rw [List.reverse_cons, feistelRounds_append, hcons, hstep,
      ih R (xorBits L (roundF R k)) hR hxlen]
    show feistelStep k (xorBits L (roundF R k), R) = (R, L)
    rw [feistelStep]
    simp only
    rw [xorBits_xorBits_cancel L (roundF R k) (by rw [length_roundF, hL])]

theorem map_getD_range : ∀ v : List Bool,
    (List.range v.length).map (fun i => v.getD i false) = v := by
  intro v
  induction v with
  | nil => rfl
  | cons a v ih =>
    rw [List.length_cons, List.range_succ_eq_map, List.map_cons, List.map_map,
      show ((fun i => (a :: v).getD i false) ∘ Nat.succ) =
        (fun i => v.getD i false) by funext i; simp, ih]
    simp

theorem perm_range_id (v : List Bool) (h : v.length = 64) :
    perm ((List.range 64).map (fun i => i + 1)) v = v := by
  rw [perm, List.map_map]
  have : ((fun i => v.getD (i - 1) false) ∘ fun i => i + 1) =
      (fun i => v.getD i false) := by
    funext i; simp
  rw [this, ← h, map_getD_range]

theorem perm_perm (t1 t2 : List Nat) (v : List Bool)
    (h : ∀ j ∈ t2, j - 1 < t1.length) :
    perm t2 (perm t1 v) = perm (t2.map fun j => t1.getD (j - 1) 0) v := by
  rw [perm, perm, perm, List.map_map]
  refine List.map_congr_left ?_
  intro j hj
  have hlt : j - 1 < t1.length := h j hj
  simp only [Function.comp, List.getD_eq_getElem?_getD, List.getElem?_map,
    List.getElem?_eq_getElem hlt]
  rfl

theorem FP_IP (v : List Bool) (h : v.length = 64) :
    perm FPtable (perm IPtable v) = v := by
  rw [perm_perm IPtable FPtable v (by decide)]
  have : (FPtable.map fun j => IPtable.getD (j - 1) 0) =
      (List.range 64).map (fun i => i + 1) := by decide
  rw [this, perm_range_id v h]

theorem IP_FP (v : List Bool) (h : v.length = 64) :
    perm IPtable (perm FPtable v) = v := by
  rw [perm_perm FPtable IPtable v (by decide)]
  have : (IPtable.map fun j => FPtable.getD (j - 1) 0) =
      (List.range 64).map (fun i => i + 1) := by decide
  rw [this, perm_range_id v h]

/-- Bit-level involution: the decryption network (encryption with reversed
keys) inverts the encryption network on 64-bit blocks, for any key list. -/
theorem encryptBits_reverse_encryptBits (ks : List (List Bool)) (p : List Bool)
    (hp : p.length = 64) : encryptBits ks.reverse (encryptBits ks p) = p := by
  have hip : (perm IPtable p).length = 64 := by rw [length_perm]; rfl
  have hL : ((perm IPtable p).take 32).length = 32 := by
    rw [List.length_take, hip]; omega
  have hR : ((perm IPtable p).drop 32).length = 32 := by
    rw [List.length_drop, hip]
  have hs := feistelRounds_lengths ks ((perm IPtable p).take 32,
    (perm IPtable p).drop 32) hL hR
  simp only [encryptBits]
  set s := feistelRounds ks ((perm IPtable p).take 32, (perm IPtable p).drop 32)
    with hsdef
  have hcat : (s.2 ++ s.1).length = 64 := by
    rw [List.length_append, hs.1, hs.2]
  rw [IP_FP _ hcat, List.take_left' hs.2, List.drop_left' hs.2,
    hsdef, feistelRounds_reverse ks _ _ hL hR]
  show perm FPtable ((perm IPtable p).take 32 ++ (perm IPtable p).drop 32) = p
  rw [List.take_append_drop, FP_IP p hp]

/-! Claim theorems. -/

/-- C1: for every valid 64-bit block and every 64-bit key, decrypting the
encryption of the block under that key returns the original block:
`decrypt (encrypt block key) key = block`. -/
theorem des_involution (P K : Nat) (h : P < 2 ^ 64) :
    decrypt (encrypt P K) K = P := by
  rw [decrypt, encrypt, decryptWith, encryptWith, decryptBits]
  set kb := (derive (toBits 64 K)).take 16 with hkb
  set c := encryptBits kb (toBits 64 P) with hcdef
  have hcl : c.length = 64 := by
    rw [hcdef]; simp only [encryptBits, length_perm]; rfl
  have key : toBits 64 (fromBits c) = c := by
    have h2 := toBits_fromBits c
    rwa [hcl] at h2
  rw [key, hcdef,
    encryptBits_reverse_encryptBits kb (toBits 64 P) (length_toBits 64 P)]
  exact fromBits_toBits 64 P h

/-- Witness for C1 at block 5, key 7. -/
theorem des_involution_witness : decrypt (encrypt 5 7) 7 = 5 :=
  des_involution 5 7 (by decide)

set_option maxRecDepth 10000 in
/-- C2: the published known-answer vector: encrypting plaintext 0 under
key 0 gives 0x8CA64DE9C1B123A7, and decrypting that ciphertext under key 0
gives back 0. -/
theorem des_known_answer :
    encrypt 0 0 = 0x8CA64DE9C1B123A7 ∧ decrypt 0x8CA64DE9C1B123A7 0 = 0 := by
  decide

/-- C3: with the `keySchedule` argument omitted, `DES.__init__` does NOT
build the default 16-round key schedule: the declared default is `False`,
the code tests `is None`, so `self._keySchedule` becomes `False` and
reading `False._rounds` raises AttributeError. Passing `None` explicitly
does produce the documented default. -/
theorem des_init_default_bug :
    DES.init none KSArg.falseArg = Except.error PyError.attributeError ∧
    DES.init none KSArg.noneArg = Except.ok ⟨⟨16, none⟩, 16, 64⟩ :=
  ⟨rfl, rfl⟩

/-- C4: constructing a DES cipher with a given key schedule: omitted
`rounds` copies the schedule's rounds; `rounds ≤ keySchedule.rounds`
succeeds with that value; `rounds > keySchedule.rounds` raises the
ConfigurationError (ValueError). -/
theorem des_init_rounds_validation (ks : DES_KS) (r : Nat) :
    DES.init none (KSArg.ksArg ks) = Except.ok ⟨ks, ks.rounds, 64⟩ ∧
    (r ≤ ks.rounds →
      DES.init (some r) (KSArg.ksArg ks) = Except.ok ⟨ks, r, 64⟩) ∧
    (ks.rounds < r →
      DES.init (some r) (KSArg.ksArg ks) = Except.error PyError.valueError) := by
  refine ⟨rfl, fun h => ?_, fun h => ?_⟩
  · simp [DES.init, h]
  · simp [DES.init, Nat.not_le.mpr h]

/-- Witness for C4 on a 16-round schedule with rounds 3 and 17. -/
theorem des_init_rounds_validation_witness :
    DES.init none (KSArg.ksArg ⟨16, none⟩) = Except.ok ⟨⟨16, none⟩, 16, 64⟩ ∧
    DES.init (some 3) (KSArg.ksArg ⟨16, none⟩) = Except.ok ⟨⟨16, none⟩, 3, 64⟩ ∧
    DES.init (some 17) (KSArg.ksArg ⟨16, none⟩) =
      Except.error PyError.valueError :=
  ⟨(des_init_rounds_validation ⟨16, none⟩ 3).1,
   (des_init_rounds_validation ⟨16, none⟩ 3).2.1 (by decide),
   (des_init_rounds_validation ⟨16, none⟩ 17).2.2 (by decide)⟩

/-- C5: `DES.__call__` with algorithm "encrypt" returns exactly
`encrypt(B, K)`, with "decrypt" exactly `decrypt(B, K)`, and with any
other string raises the ConfigurationError (ValueError), for every block
and key. -/
theorem des_call_dispatch (d : DES) (B K : Nat) (alg : String) :
    DES.call d B K "encrypt" = Except.ok (encryptWith d.rounds B K) ∧
    DES.call d B K "decrypt" = Except.ok (decryptWith d.rounds B K) ∧
    (alg ≠ "encrypt" → alg ≠ "decrypt" →
      DES.call d B K alg = Except.error PyError.valueError) := by
  refine ⟨rfl, ?_, fun h1 h2 => ?_⟩
  · simp [DES.call]
  · simp [DES.call, h1, h2]

/-- Witness for C5 at the mode string "mode". -/
theorem des_call_dispatch_witness :
    DES.call ⟨⟨16, none⟩, 16, 64⟩ 1 2 "encrypt" =
      Except.ok (encryptWith 16 1 2) ∧
    DES.call ⟨⟨16, none⟩, 16, 64⟩ 1 2 "mode" =
      Except.error PyError.valueError :=
  ⟨(des_call_dispatch ⟨⟨16, none⟩, 16, 64⟩ 1 2 "mode").1,
   (des_call_dispatch ⟨⟨16, none⟩, 16, 64⟩ 1 2 "mode").2.2
     (by decide) (by decide)⟩

/-- C6: a key schedule without a master key raises the ConfigurationError
(ValueError) on both indexing and iteration; with a master key, indexing
returns the r-th derived round key and iteration yields the derived list
in round order. -/
theorem des_ks_getitem_iter (ks : DES_KS) (r : Nat) :
    (ks.master_key = none →
      DES_KS.getitem ks r = Except.error PyError.valueError ∧
      DES_KS.iter ks = Except.error PyError.valueError) ∧
    (∀ K, ks.master_key = some K →
      (r < (DES_KS.call ks K).length →
        DES_KS.getitem ks r = Except.ok ((DES_KS.call ks K).getD r 0)) ∧
      DES_KS.iter ks = Except.ok (DES_KS.call ks K)) := by
  constructor
  · intro h
    constructor <;> simp [DES_KS.getitem, DES_KS.iter, h]
  · intro K hK
    constructor
    · intro hr
      simp [DES_KS.getitem, hK, List.getElem?_eq_getElem hr,
        List.getD_eq_getElem?_getD]
    · simp [DES_KS.iter, hK]

set_option maxRecDepth 10000 in
/-- Witness for C6: an unbound schedule errors; a schedule bound to key 0
indexes and iterates its derived keys. -/
theorem des_ks_getitem_iter_witness :
    DES_KS.getitem ⟨16, none⟩ 0 = Except.error PyError.valueError ∧
    DES_KS.iter ⟨16, some 0⟩ = Except.ok (DES_KS.call ⟨16, some 0⟩ 0) ∧
    DES_KS.getitem ⟨16, some 0⟩ 2 =
      Except.ok ((DES_KS.call ⟨16, some 0⟩ 0).getD 2 0) :=
  ⟨((des_ks_getitem_iter ⟨16, none⟩ 0).1 rfl).1,
   ((des_ks_getitem_iter ⟨16, some 0⟩ 0).2 0 rfl).2,
   ((des_ks_getitem_iter ⟨16, some 0⟩ 2).2 0 rfl).1 (by decide)⟩

/-- C7: the key-schedule rotation for round i rotates left by `shift[i]`
(1 for rounds 1, 2, 9, 16; 2 otherwise), the result is
`H[a:] ++ H[0:a]`, rotating (1,0,1,0,1,0) for round 1 gives
(0,1,0,1,0,1), and the round-3 rotation maps (1,0,1,0,1,0) to itself. -/
theorem left_shift_rotation (H : List Bool) (i : Nat) :
    (∀ j < 17, 1 ≤ j →
      amountAt j = if j = 1 ∨ j = 2 ∨ j = 9 ∨ j = 16 then 1 else 2) ∧
    left_shift H i = H.drop (amountAt i) ++ H.take (amountAt i) ∧
    left_shift [true, false, true, false, true, false] 1 =
      [false, true, false, true, false, true] ∧
    left_shift [true, false, true, false, true, false] 3 =
      [true, false, true, false, true, false] :=
  ⟨by decide, rfl, by decide, by decide⟩

/-- Witness for C7 at rounds 9 and 3 and the doctest pattern. -/
theorem left_shift_rotation_witness :
    amountAt 9 = 1 ∧ amountAt 3 = 2 ∧
    left_shift [true, false, true, false, true, false] 1 =
      [false, true, false, true, false, true] :=
  ⟨((left_shift_rotation [] 0).1 9 (by decide) (by decide)).trans (by decide),
   ((left_shift_rotation [] 0).1 3 (by decide) (by decide)).trans (by decide),
   (left_shift_rotation [] 0).2.2.1⟩

/-- C8: the rotation is non-destructive: in the state-passing embedding of
`_left_shift` (whose body only reads `half` through copying slices and
builds a fresh vector), the argument's contents after the call equal its
contents before, and the returned value is the rotation. -/
theorem left_shift_nondestructive (H : List Bool) (i : Nat) :
    (left_shift_st H i).2 = H ∧ (left_shift_st H i).1 = left_shift H i :=
  ⟨rfl, rfl⟩

/-- C9: `__eq__` via `__dict__` comparison is structural over all
configuration fields: two `DES_KS` are equal exactly when rounds and
master key agree; two `DES` are equal exactly when rounds, key schedule
and blocksize agree. -/
theorem structural_equality (a b : DES_KS) (c d : DES) :
    (DES_KS.dictEq a b = true ↔
      a.rounds = b.rounds ∧ a.master_key = b.master_key) ∧
    (DES.dictEq c d = true ↔
      c.rounds = d.rounds ∧ c.keySchedule = d.keySchedule ∧
        c.blocksize = d.blocksize) := by
  constructor
  · simp [DES_KS.dictEq]
  · simp [DES.dictEq]; tauto

/-- C10: calling `_left_shift` with round index 0 does not fail: the table
index is `-1`, Python selects the last entry (1), so the result is the
half rotated left by 1, identical to rounds 1 and 16. -/
theorem left_shift_round_zero (H : List Bool) :
    amountAt 0 = 1 ∧
    left_shift H 0 = H.drop 1 ++ H.take 1 ∧
    left_shift H 0 = left_shift H 1 ∧
    left_shift H 0 = left_shift H 16 :=
  ⟨rfl, rfl, rfl, rfl⟩

end DESSpec
